import Mathlib

/-!
Verification of the agent tooling and protocol bridge core of
`bevy_ai_editor`: a shallow embedding, in Lean 4, of the file-editing
tools, the `cd` handling of the shell tool, the batch dispatcher, the BRP
JSON-RPC client, and the DAP session counters, ring buffer and
stopped-event wait loop, together with theorems about their behaviour.

File contents and command strings are modelled as `List Char` (Rust
`String`); machine counters (`u64`, `i64`) are modelled as `Nat` / `Int`
with explicit twos-complement wrapping where the source wraps.
-/

/-- A Rust string, modelled as its list of characters. -/
abbrev Str := List Char

/-- Rust `str::trim`: drop whitespace from both ends
(`src/apps/Axiom/src/tools/shell.rs` uses it on the incoming command). -/
def trimStr (s : Str) : Str :=
  ((s.dropWhile Char.isWhitespace).reverse.dropWhile Char.isWhitespace).reverse

/-- Rust `str::contains` for string patterns: `strContains hay needle`
is true iff `needle` occurs as a contiguous substring of `hay`
(the empty needle occurs in every haystack). -/
def strContains : Str → Str → Bool
  | [], needle => needle.isEmpty
  | c :: rest, needle => needle.isPrefixOf (c :: rest) || strContains rest needle

/-- The specification-level occurrence predicate: `old` occurs as a
contiguous substring of `s`. -/
def OccursIn (old s : Str) : Prop := ∃ pre suf, s = pre ++ old ++ suf

/-- Scanner for Rust `str::replace` with the non-empty pattern
`o :: os`: replace every occurrence, left to right, non-overlapping.
The `fuel` argument only drives termination; `fuel ≥ s.length` makes it
total (each step consumes at least one character of `s`). -/
def replaceAllGo (o : Char) (os new : Str) : Nat → Str → Str
  | _, [] => []
  | 0, s => s
  | fuel + 1, c :: rest =>
    if (o :: os).isPrefixOf (c :: rest) then
      new ++ replaceAllGo o os new fuel (rest.drop os.length)
    else
      c :: replaceAllGo o os new fuel rest

/-- Rust `str::replace(old, new)`: replaces every occurrence of `old`
in `s`; an empty pattern matches at every character boundary. -/
def rustReplace (s old new : Str) : Str :=
  match old with
  | [] => new ++ s.foldr (fun c acc => c :: (new ++ acc)) []
  | o :: os => replaceAllGo o os new s.length s

/-- Scanner for Rust `str::replacen(old, new, 1)` with non-empty
pattern `o :: os`: replace only the first occurrence. -/
def replaceOneGo (o : Char) (os new : Str) : Str → Str
  | [] => []
  | c :: rest =>
    if (o :: os).isPrefixOf (c :: rest) then
      new ++ rest.drop os.length
    else
      c :: replaceOneGo o os new rest

/-- Rust `str::replacen(old, new, 1)`: replaces the first occurrence of
`old` in `s`; an empty pattern matches first at position 0. -/
def rustReplacen1 (s old new : Str) : Str :=
  match old with
  | [] => new ++ s
  | o :: os => replaceOneGo o os new s

/-- Embedding of `EditFileTool::execute`
(`src/apps/Axiom/src/tools/mod.rs`, lines 166-198): read the file,
fail if `old_string` does not occur, otherwise replace (the source
calls `content.replace`, which replaces every occurrence) and write
back.  The first component is the file content on disk after the call;
the second is the value returned by the tool. -/
def editFileRun (path : String) (disk old new : Str) : Str × Except String String :=
  if strContains disk old = false then
    (disk, Except.error "old_string not found in file content")
  else
    (rustReplace disk old new, Except.ok ("Successfully edited file " ++ path))

/-- One edit of the `multi_edit` tool: JSON object
`{old_string, new_string, replace_all?}` with `replace_all` already
defaulted to `false` when absent (`unwrap_or(false)` in the source). -/
structure MEdit where
  old_string : Str
  new_string : Str
  replace_all : Bool

/-- Applying a single edit to the in-memory content
(`src/apps/Axiom/src/tools/multiedit.rs`, lines 87-91). -/
def applyOneEdit (c : Str) (e : MEdit) : Str :=
  if e.replace_all then rustReplace c e.old_string e.new_string
  else rustReplacen1 c e.old_string e.new_string

/-- The in-memory edit loop of `MultiEditTool::execute`
(`src/apps/Axiom/src/tools/multiedit.rs`, lines 67-92), carrying the
running `enumerate` index `i` for error messages. -/
def applyEditsFrom (i : Nat) (c : Str) : List MEdit → Except String Str
  | [] => Except.ok c
  | e :: rest =>
    if strContains c e.old_string then
      applyEditsFrom (i + 1) (applyOneEdit c e) rest
    else
      Except.error ("Edit #" ++ toString i ++ ": \x27old_string\x27 not found in content")

/-- The content reached after successfully applying a list of edits in
order, or `none` as soon as the `old_string` of some edit is absent at the
point that edit is applied. -/
def contentAfterEdits (c : Str) : List MEdit → Option Str
  | [] => some c
  | e :: rest =>
    if strContains c e.old_string then
      contentAfterEdits (applyOneEdit c e) rest
    else
      none

/-- Embedding of `MultiEditTool::execute`
(`src/apps/Axiom/src/tools/multiedit.rs`, lines 49-102): read the file,
apply every edit to an in-memory copy, and only when all succeed call
`fs::write` once at the end.  The first component records the sequence
of writes performed on the file (empty when the call errors before the
final write); the second is the value returned by the tool. -/
def multiEditRun (path : String) (disk : Str) (edits : List MEdit) :
    List Str × Except String String :=
  match applyEditsFrom 0 disk edits with
  | Except.error e => ([], Except.error e)
  | Except.ok c =>
      ([c], Except.ok ("Successfully applied " ++ toString edits.length ++ " edits to " ++ path))

/-- Constant `MAX_RECENT_OUTPUT_EVENTS` from
`src/crates/debugger_mcp_server/src/main.rs`, line 38. -/
def MAX_RECENT_OUTPUT_EVENTS : Nat := 1024

/-- The eviction loop of `push_recent_output_event`
(`src/crates/debugger_mcp_server/src/main.rs`, lines 464-466):
`while events.len() > cap { events.pop_front(); }`. -/
def popFrontWhileOver {α : Type} (cap : Nat) : List α → List α
  | [] => []
  | x :: xs => if cap < xs.length + 1 then popFrontWhileOver cap xs else x :: xs

/-- Embedding of `push_recent_output_event`
(`src/crates/debugger_mcp_server/src/main.rs`, lines 462-467):
push the new `(seq, output)` entry at the back, then evict from the
front while over capacity. -/
def push_recent_output_event (events : List (Nat × String)) (seq : Nat) (output : String) :
    List (Nat × String) :=
  popFrontWhileOver MAX_RECENT_OUTPUT_EVENTS (events ++ [(seq, output)])

/-- Pushing the output events with seqs `0, 1, ..., n-1` (payloads given
by `out`) onto an initially empty ring, in order, exactly as the DAP
reader task does for consecutive `output` events. -/
def pushSeqRange (out : Nat → String) (n : Nat) : List (Nat × String) :=
  (List.range n).foldl (fun evs i => push_recent_output_event evs i (out i)) []

/-- Rust `u64::from_le_bytes` on a list of byte values (little-endian). -/
def u64FromLeBytes (bs : List Nat) : Nat :=
  bs.foldr (fun b acc => acc * 256 + b) 0

/-- Embedding of `read_u64_le`
(`src/crates/debugger_mcp_server/src/main.rs`, lines 662-672): decode
the first 8 bytes as a little-endian `u64`, or fail when fewer than 8
bytes are supplied. -/
def read_u64_le (bytes : List Nat) : Except String Nat :=
  if bytes.length < 8 then
    Except.error ("Expected at least 8 bytes, received " ++ toString bytes.length ++ " bytes")
  else
    Except.ok (u64FromLeBytes (bytes.take 8))

/-- Constant `WAIT_FOR_STOPPED_TIMEOUT` (10 s), in milliseconds
(`src/crates/debugger_mcp_server/src/main.rs`, line 34). -/
def WAIT_FOR_STOPPED_TIMEOUT_MS : Nat := 10000

/-- Constant `STOPPED_POLL_INTERVAL` (50 ms), in milliseconds
(`src/crates/debugger_mcp_server/src/main.rs`, line 35). -/
def STOPPED_POLL_INTERVAL_MS : Nat := 50

/-- The successful-return check of one poll iteration in
`wait_for_stopped_event_after_seq`: the shared state at poll `k` is
`trace k = (stopped_seq counter value, stored last_stopped_event)`;
the loop returns the stored event only when the counter strictly
exceeds `beforeSeq` and an event is stored. -/
def stoppedHit {Ev : Type} (trace : Nat → Nat × Option Ev) (beforeSeq k : Nat) : Option Ev :=
  if beforeSeq < (trace k).1 then (trace k).2 else none

/-- Embedding of the polling loop of `wait_for_stopped_event_after_seq`
(`src/crates/debugger_mcp_server/src/main.rs`, lines 639-660): at each
iteration, first the counter check (return the stored event when the
counter exceeds `beforeSeq`), then the deadline check (timeout error),
then sleep and poll again.  Real time is modelled by `fuel`, the number
of poll iterations the 10 s deadline still allows at 50 ms per poll. -/
def wait_for_stopped_event_after_seq {Ev : Type} (trace : Nat → Nat × Option Ev)
    (beforeSeq : Nat) : Nat → Nat → Except String Ev
  | k, fuel =>
    match stoppedHit trace beforeSeq k with
    | some e => Except.ok e
    | none =>
      match fuel with
      | 0 => Except.error "Timed out waiting for next DAP \x27stopped\x27 event"
      | f + 1 => wait_for_stopped_event_after_seq trace beforeSeq (k + 1) f

/-- Embedding of `perform_step_with_stop_restore`
(`src/crates/debugger_mcp_server/src/main.rs`, lines 741-757):
`before` is the `stopped_seq` generation loaded before the step request
(`next` / `stepIn` / `stepOut`) is issued; the subsequent shared-state
evolution during the wait is `trace`, polled from iteration 0. -/
def perform_step_with_stop_restore {Ev : Type} (before : Nat)
    (trace : Nat → Nat × Option Ev) (fuel : Nat) : Except String Ev :=
  wait_for_stopped_event_after_seq trace before 0 fuel

/-- Run a state-passing id generator `step` for `n` calls from state
`s`, collecting the ids handed out in order. -/
def idsOf {σ ι : Type} (step : σ → ι × σ) : σ → Nat → List ι
  | _, 0 => []
  | s, n + 1 => (step s).1 :: idsOf step (step s).2 n

/-- The atomic request-id counter of the BRP client starts at 1
(`src/crates/bevy_bridge_core/src/client.rs`, line 55). -/
def brpInit : Nat := 1

/-- One `BrpClient::send_rpc` id allocation
(`src/crates/bevy_bridge_core/src/client.rs`, line 60):
`fetch_add(1)` returns the old value and stores the wrapped successor
(`u64` wrapping). -/
def brpStep (ctr : Nat) : Nat × Nat := (ctr, (ctr + 1) % 2 ^ 64)

/-- The `next_seq` counter of the DAP session starts at 0
(`src/crates/debugger_mcp_server/src/main.rs`, line 867). -/
def dapInit : Nat := 0

/-- One `DapSession::send_request_begin` seq allocation
(`src/crates/debugger_mcp_server/src/main.rs`, lines 235-236):
`self.next_seq += 1` (`u64` wrapping) and use the new value. -/
def dapStep (ctr : Nat) : Nat × Nat := ((ctr + 1) % 2 ^ 64, (ctr + 1) % 2 ^ 64)

/-- The `request_id : i64` counter of the LSP session starts at 0
(`src/apps/Axiom/src/tools/lsp.rs`, line 121). -/
def lspInit : Int := 0

/-- One LSP `send_request` id allocation
(`src/apps/Axiom/src/tools/lsp.rs`, lines 202-203):
`session.request_id += 1` (`i64`, twos-complement wrapping) and use
the new value. -/
def lspStep (ctr : Int) : Int × Int :=
  (((ctr + 1 + 2 ^ 63) % 2 ^ 64) - 2 ^ 63, ((ctr + 1 + 2 ^ 63) % 2 ^ 64) - 2 ^ 63)

/-- One item of the `tools` array of the `batch_run` tool, already decoded:
a tool name and an opaque JSON `parameters` blob (type `α`). -/
structure BatchItem (α : Type) where
  tool : String
  params : α

/-- A registered tool as the batch dispatcher sees it: its `name()` and
its `execute` function, which returns a textual result or an error. -/
structure ToolImpl (α : Type) where
  name : String
  exec : α → Except String String

/-- One `{tool, status, output|error}` record pushed by
`BatchTool::execute` into its `results` vector. -/
inductive BatchRecord where
  | success (tool output : String)
  | failure (tool err : String)
deriving DecidableEq, Repr

/-- Processing of a single well-formed batch item
(`src/apps/Axiom/src/tools/batch.rs`, lines 84-129): look the tool up
by exact name in the registry; on a hit run `execute` and record
success or error; on a miss record a "not found" error. -/
def batchItemRecord {α : Type} (registry : List (ToolImpl α)) (item : BatchItem α) :
    BatchRecord :=
  match registry.find? (fun t => t.name == item.tool) with
  | some t =>
    match t.exec item.params with
    | Except.ok out => BatchRecord.success item.tool out
    | Except.error e => BatchRecord.failure item.tool e
  | none => BatchRecord.failure item.tool ("Tool \x27" ++ item.tool ++ "\x27 not found")

/-- Embedding of the item loop of `BatchTool::execute`
(`src/apps/Axiom/src/tools/batch.rs`, lines 72-130) over well-formed
items (items whose `tool` and `parameters` fields are present; a
missing field aborts the loop in the source and is outside this
model).  The loop always runs to completion and the call as a whole
returns `Ok` with the collected records. -/
def batchExecute {α : Type} (registry : List (ToolImpl α)) :
    List (BatchItem α) → Except String (List BatchRecord)
  | items => Except.ok (items.map (batchItemRecord registry))

/-- The `result`-or-`error` payload of a parsed JSON-RPC response
(`ResultOrError` in `src/crates/bevy_bridge_core/src/client.rs`);
`α` stands for `serde_json::Value`. -/
inductive RpcPayload (α : Type) where
  | result (v : α)
  | rpcError (code : Int) (message : String) (data : Option α)

/-- A parsed `JsonRpcResponse` (`src/crates/bevy_bridge_core/src/client.rs`,
lines 22-28): an id plus result-or-error payload. -/
structure RpcResponse (α : Type) where
  id : Nat
  payload : RpcPayload α

/-- The `BrpError` variants `send_rpc` can produce after a response
arrives (`src/crates/bevy_bridge_core/src/error.rs`). -/
inductive BrpErr (α : Type) where
  | invalidResponse (msg : String)
  | jsonRpc (code : Int) (message : String) (data : Option α)

/-- Embedding of the response handling of `BrpClient::send_rpc`
(`src/crates/bevy_bridge_core/src/client.rs`, lines 78-111): `reqId` is
the id just allocated for the outbound request, `status` the HTTP
status code of the reply, `resp` the parsed body.  Non-2xx status fails
(`reqwest` renders the status with its canonical reason; the embedding
keeps the numeric code); a parsed response whose id differs from
`reqId` fails with an id-mismatch error; otherwise the payload decides
the outcome. -/
def sendRpcHandleResponse {α : Type} (reqId : Nat) (status : Nat) (resp : RpcResponse α) :
    Except (BrpErr α) α :=
  if ¬(200 ≤ status ∧ status ≤ 299) then
    Except.error (BrpErr.invalidResponse ("HTTP error: " ++ toString status))
  else if resp.id ≠ reqId then
    Except.error (BrpErr.invalidResponse
      ("Response ID mismatch: expected " ++ toString reqId ++ ", got " ++ toString resp.id))
  else
    match resp.payload with
    | RpcPayload.result v => Except.ok v
    | RpcPayload.rpcError code message data => Except.error (BrpErr.jsonRpc code message data)

/-- The persistent shell state of the `run_command` tool
(`ShellState` in `src/apps/Axiom/src/tools/shell.rs`): current working
directory and environment map (the environment is untouched by the `cd`
branch and is carried along opaquely). -/
structure ShState where
  cwd : Str
  envVars : List (Str × Str)
deriving DecidableEq

/-- The filesystem facts the `cd` branch of the shell tool consults,
abstracted as an oracle: `dirs::home_dir()`, `Path::canonicalize`
(returning the OS error string on failure), `Path::is_dir` on the
canonicalized path, `Path::is_absolute`, and `Path::join` for a
relative path against the current cwd. -/
structure FsOracle where
  homeDir : Option Str
  canonicalize : Str → Except Str Str
  isDir : Str → Bool
  isAbsolute : Str → Bool
  join : Str → Str → Str

/-- The outcome of one `ShellTool::execute` call: the `cd` branch
returns `ok`/`err` without ever spawning a subprocess; every other
command is handed to `sh -c` (modelled as `spawned` with the exact
command string; its output capture and env-var update happen outside
this model). -/
inductive ShellResult where
  | ok (msg : Str)
  | err (msg : Str)
  | spawned (cmd : Str)
deriving DecidableEq

/-- The path string the `cd` branch resolves
(`src/apps/Axiom/src/tools/shell.rs`, lines 78-82): for a bare `cd`
it is `~`; otherwise the entire remainder after the `"cd "` prefix,
trimmed — chains such as `foo && make` are part of the path. -/
def cdPathOf (c : Str) : Str :=
  if c = "cd".toList then "~".toList else trimStr (c.drop 3)

/-- The `new_path` computation of the `cd` branch
(`src/apps/Axiom/src/tools/shell.rs`, lines 88-98): `~` resolves to the
home directory (error when unavailable); an absolute path is taken as
is; a relative path is joined onto the current cwd. -/
def resolveCdPath (fs : FsOracle) (st : ShState) (pathStr : Str) : Except Str Str :=
  if pathStr = "~".toList then
    match fs.homeDir with
    | some h => Except.ok h
    | none => Except.error ("Could not determine home directory".toList)
  else
    Except.ok (if fs.isAbsolute pathStr then pathStr else fs.join st.cwd pathStr)

/-- The `cd` branch of `ShellTool::execute`
(`src/apps/Axiom/src/tools/shell.rs`, lines 77-120): resolve the path
(error when the home directory is unavailable), canonicalize (error
when that fails), verify the result is a directory, and only then
update `cwd`.  On every error the state is returned unchanged. -/
def cdExec (fs : FsOracle) (st : ShState) (pathStr : Str) : ShState × ShellResult :=
  match resolveCdPath fs st pathStr with
  | Except.error e => (st, ShellResult.err e)
  | Except.ok newPath =>
    match fs.canonicalize newPath with
    | Except.ok p =>
      if fs.isDir p then
        ({ st with cwd := p }, ShellResult.ok ("Changed directory to: ".toList ++ p))
      else
        (st, ShellResult.err ("Path is not a directory: ".toList ++ newPath))
    | Except.error e =>
      (st, ShellResult.err ("Directory not found: ".toList ++ newPath ++ " (".toList ++ e ++ ")".toList))

/-- Embedding of `ShellTool::execute`
(`src/apps/Axiom/src/tools/shell.rs`, lines 63-188): trim the command;
if the trimmed text starts with `"cd "` or equals `"cd"`, take the
internal `cd` branch and return without spawning anything; every other
command is executed through the OS shell (`spawned`). -/
def shellExecute (fs : FsOracle) (st : ShState) (command : Str) : ShState × ShellResult :=
  let c := trimStr command
  if ("cd ".toList.isPrefixOf c) ∨ c = "cd".toList then
    cdExec fs st (cdPathOf c)
  else
    (st, ShellResult.spawned c)

/-! ## Theorems -/

theorem wait_ok_exists {Ev : Type} (trace : Nat → Nat × Option Ev) (before : Nat) :
    ∀ fuel k (e : Ev), wait_for_stopped_event_after_seq trace before k fuel = Except.ok e →
      ∃ j, k ≤ j ∧ j ≤ k + fuel ∧ before < (trace j).1 ∧ (trace j).2 = some e := by
  intro fuel
  induction fuel with
  | zero =>
    intro k e h
    rw [wait_for_stopped_event_after_seq] at h
    cases h0 : stoppedHit trace before k with
    | some e' =>
      rw [h0] at h
      cases h
      refine ⟨k, le_refl k, Nat.le_add_right k 0, ?_⟩
      unfold stoppedHit at h0
      by_cases hlt : before < (trace k).1
      · rw [if_pos hlt] at h0
        exact ⟨hlt, h0⟩
      · rw [if_neg hlt] at h0
        cases h0
    | none => rw [h0] at h; cases h
  | succ f ih =>
    intro k e h
    rw [wait_for_stopped_event_after_seq] at h
    cases h0 : stoppedHit trace before k with
    | some e' =>
      rw [h0] at h
      cases h
      refine ⟨k, le_refl k, Nat.le_add_right k (f + 1), ?_⟩
      unfold stoppedHit at h0
      by_cases hlt : before < (trace k).1
      · rw [if_pos hlt] at h0
        exact ⟨hlt, h0⟩
      · rw [if_neg hlt] at h0
        cases h0
    | none =>
      rw [h0] at h
      obtain ⟨j, hj1, hj2, hj3, hj4⟩ := ih (k + 1) e h
      exact ⟨j, Nat.le_of_succ_le hj1, by omega, hj3, hj4⟩

theorem wait_timeout_when_no_fresh_stop {Ev : Type} (trace : Nat → Nat × Option Ev)
    (before : Nat) (h : ∀ j, (trace j).1 ≤ before) :
    ∀ fuel k, wait_for_stopped_event_after_seq trace before k fuel
      = (Except.error "Timed out waiting for next DAP \x27stopped\x27 event" : Except String Ev) := by
  intro fuel
  induction fuel with
  | zero =>
    intro k
    rw [wait_for_stopped_event_after_seq]
    have h0 : stoppedHit trace before k = none := by
      unfold stoppedHit
      rw [if_neg (Nat.not_lt.mpr (h k))]
    rw [h0]
  | succ f ih =>
    intro k
    rw [wait_for_stopped_event_after_seq]
    have h0 : stoppedHit trace before k = none := by
      unfold stoppedHit
      rw [if_neg (Nat.not_lt.mpr (h k))]
    rw [h0]
    exact ih (k + 1)

/-- C2: every DAP step operation records the stopped-generation counter
`before` prior to issuing the step request, and returns a stopped-event
summary only if, at some poll within the wait window, the counter has
become strictly greater than `before` (the event returned is the one
stored at that poll, never a stale one); if the counter never exceeds
`before`, the wait — bounded by the 10 s deadline at 50 ms polls,
modelled as the iteration budget `fuel` — fails with the timeout error
instead of returning the stored stopped event. -/
theorem step_returns_only_fresh_stops {Ev : Type} (trace : Nat → Nat × Option Ev)
    (before fuel : Nat) :
    (∀ e : Ev, perform_step_with_stop_restore before trace fuel = Except.ok e →
      ∃ j, j ≤ fuel ∧ before < (trace j).1 ∧ (trace j).2 = some e)
    ∧ ((∀ j, (trace j).1 ≤ before) →
      perform_step_with_stop_restore before trace fuel
        = Except.error "Timed out waiting for next DAP \x27stopped\x27 event") := by
  constructor
  · intro e h
    obtain ⟨j, _, hj2, hj3, hj4⟩ := wait_ok_exists trace before fuel 0 e h
    exact ⟨j, by omega, hj3, hj4⟩
  · intro h
    exact wait_timeout_when_no_fresh_stop trace before h fuel 0

/-- Witness for C2: with a stalled counter (never exceeding the
recorded generation 0), a step with a 3-iteration budget times out. -/
theorem step_returns_only_fresh_stops_witness :
    @perform_step_with_stop_restore String 0 (fun _ => (0, none)) 3
      = Except.error "Timed out waiting for next DAP \x27stopped\x27 event" :=
  (step_returns_only_fresh_stops (fun _ => (0, none)) 0 3).2 (fun _ => Nat.le_refl 0)

/-- C9: `read_u64_le` decodes the first 8 bytes of its input as a
little-endian `u64` — in particular
`read_u64_le [0x88,0x77,0x66,0x55,0x44,0x33,0x22,0x11] = 0x1122334455667788`
— and for every input of fewer than 8 bytes it returns the error
`"Expected at least 8 bytes, received N bytes"` where `N` is the input
length. -/
theorem read_u64_le_spec :
    read_u64_le [0x88, 0x77, 0x66, 0x55, 0x44, 0x33, 0x22, 0x11]
      = Except.ok 0x1122334455667788
    ∧ ∀ bytes : List Nat, bytes.length < 8 →
        read_u64_le bytes
          = Except.error ("Expected at least 8 bytes, received "
              ++ toString bytes.length ++ " bytes") := by
  constructor
  · rfl
  · intro bytes h
    unfold read_u64_le
    rw [if_pos h]

/-- Witness for C9: a 3-byte input is shorter than 8 bytes and yields
exactly the specified error text. -/
theorem read_u64_le_spec_witness :
    ([0, 0, 0] : List Nat).length < 8
    ∧ read_u64_le [0, 0, 0] = Except.error "Expected at least 8 bytes, received 3 bytes" :=
  ⟨by decide, read_u64_le_spec.2 [0, 0, 0] (by decide)⟩

/-- C7: for every BRP call through `send_rpc`, a non-2xx HTTP status
causes the call to fail with an error, and a parsed JSON-RPC response
whose id differs from the id of the request just sent causes the call
to fail with an id-mismatch error — never returning the result of the response. -/
theorem send_rpc_response_checks {α : Type} (reqId status : Nat) (resp : RpcResponse α) :
    (¬(200 ≤ status ∧ status ≤ 299) →
      sendRpcHandleResponse reqId status resp
        = Except.error (BrpErr.invalidResponse ("HTTP error: " ++ toString status)))
    ∧ (200 ≤ status ∧ status ≤ 299 → resp.id ≠ reqId →
      sendRpcHandleResponse reqId status resp
        = Except.error (BrpErr.invalidResponse
            ("Response ID mismatch: expected " ++ toString reqId
              ++ ", got " ++ toString resp.id))
      ∧ ∀ v : α, sendRpcHandleResponse reqId status resp ≠ Except.ok v) := by
  constructor
  · intro h
    unfold sendRpcHandleResponse
    rw [if_pos h]
  · intro h2xx hne
    have heq : sendRpcHandleResponse reqId status resp
        = Except.error (BrpErr.invalidResponse
            ("Response ID mismatch: expected " ++ toString reqId
              ++ ", got " ++ toString resp.id)) := by
      unfold sendRpcHandleResponse
      rw [if_neg (by exact fun hc => hc h2xx), if_pos hne]
    refine ⟨heq, fun v hv => ?_⟩
    rw [heq] at hv
    cases hv

/-- Witness for C7: with request id 1, HTTP 200 and a parsed response
carrying id 2 and a successful result payload, `send_rpc` fails with
the id-mismatch error rather than returning the result. -/
theorem send_rpc_response_checks_witness :
    (200 ≤ 200 ∧ 200 ≤ 299) ∧ (2 ≠ 1)
    ∧ sendRpcHandleResponse 1 200 (RpcResponse.mk 2 (RpcPayload.result (7 : Nat)))
        = Except.error (BrpErr.invalidResponse "Response ID mismatch: expected 1, got 2") :=
  ⟨by decide, by decide,
    ((send_rpc_response_checks 1 200 (RpcResponse.mk 2 (RpcPayload.result 7))).2
      (by decide) (by decide)).1⟩

theorem brp_ids_eq_range' (c n : Nat) (h : c + n ≤ 2 ^ 64) :
    idsOf brpStep c n = List.range' c n := by
  induction n generalizing c with
  | zero => rfl
  | succ m ih =>
    rw [idsOf, List.range'_succ]
    have hstep : brpStep c = (c, (c + 1) % 2 ^ 64) := rfl
    rw [hstep]
    by_cases hc : c + 1 < 2 ^ 64
    · rw [Nat.mod_eq_of_lt hc]
      exact congrArg (c :: ·) (ih (c + 1) (by omega))
    · have hm : m = 0 := by omega
      subst hm
      rfl

theorem dap_seqs_eq_range' (c n : Nat) (h : c + n < 2 ^ 64) :
    idsOf dapStep c n = List.range' (c + 1) n := by
  induction n generalizing c with
  | zero => rfl
  | succ m ih =>
    rw [idsOf, List.range'_succ]
    have hc : c + 1 < 2 ^ 64 := by omega
    have hstep : dapStep c = (c + 1, c + 1) := by
      unfold dapStep
      rw [Nat.mod_eq_of_lt hc]
    rw [hstep]
    exact congrArg ((c + 1) :: ·) (ih (c + 1) (by omega))

theorem lsp_ids_eq_range' (c : Int) (n : Nat) (h0 : 0 ≤ c) (h : c + n < 2 ^ 63) :
    idsOf lspStep c n = (List.range' (c.toNat + 1) n).map Int.ofNat := by
  induction n generalizing c with
  | zero => rfl
  | succ m ih =>
    rw [idsOf, List.range'_succ, List.map_cons]
    have hmod : (c + 1 + 2 ^ 63) % 2 ^ 64 = c + 1 + 2 ^ 63 := by
      apply Int.emod_eq_of_lt <;> omega
    have hstep : lspStep c = (c + 1, c + 1) := by
      unfold lspStep
      rw [hmod]
      have hsub : c + 1 + 2 ^ 63 - 2 ^ 63 = c + 1 := by omega
      rw [hsub]
    rw [hstep]
    have hcast : Int.ofNat (c.toNat + 1) = c + 1 := by
      rw [Int.ofNat_eq_natCast]
      omega
    rw [hcast]
    have hrec := ih (c + 1) (by omega) (by push_cast; push_cast at h; omega)
    have htn : (c + 1).toNat + 1 = c.toNat + 1 + 1 := by omega
    rw [hrec, htn]

/-- C4: within one session, outbound identifiers are strictly monotonic
and unique: over any number `n` of calls (bounded by the machine
width of the counters), the JSON-RPC ids of the BRP client are exactly `1, 2, …, n`
(starting at 1, each strictly greater than all previous), the DAP
session emits outbound request seqs that are exactly `1, 2, …, n` (increasing by
1 from 1), and the LSP session emits request ids that are exactly `1, 2, …, n`;
in particular no id or seq is ever reused within its session. -/
theorem outbound_ids_strictly_monotonic (n : Nat) (h : n < 2 ^ 63) :
    idsOf brpStep brpInit n = List.range' 1 n
    ∧ idsOf dapStep dapInit n = List.range' 1 n
    ∧ idsOf lspStep lspInit n = (List.range' 1 n).map Int.ofNat
    ∧ (List.range' 1 n).Pairwise (· < ·) := by
  refine ⟨?_, ?_, ?_, ?_⟩
  · exact brp_ids_eq_range' 1 n (by have : (2:Nat) ^ 63 < 2 ^ 64 := by norm_num
                                    omega)
  · have := dap_seqs_eq_range' 0 n (by have : (2:Nat) ^ 63 < 2 ^ 64 := by norm_num
                                       omega)
    simpa [dapInit] using this
  · have := lsp_ids_eq_range' 0 n (by omega) (by push_cast; omega)
    simpa [lspInit] using this
  · have := List.pairwise_lt_range' 1 n 1 (by omega)
    exact this

/-- Witness for C4: three calls on each fresh session hand out exactly
the ids 1, 2, 3. -/
theorem outbound_ids_strictly_monotonic_witness :
    (3 < 2 ^ 63)
    ∧ idsOf brpStep brpInit 3 = [1, 2, 3]
    ∧ idsOf dapStep dapInit 3 = [1, 2, 3]
    ∧ idsOf lspStep lspInit 3 = [(1 : Int), 2, 3] := by
  refine ⟨by norm_num, ?_, ?_, ?_⟩
  · exact (outbound_ids_strictly_monotonic 3 (by norm_num)).1
  · exact (outbound_ids_strictly_monotonic 3 (by norm_num)).2.1
  · exact (outbound_ids_strictly_monotonic 3 (by norm_num)).2.2.1

theorem popFrontWhileOver_eq_drop {α : Type} (cap : Nat) (l : List α) :
    popFrontWhileOver cap l = l.drop (l.length - cap) := by
  induction l with
  | nil => simp [popFrontWhileOver]
  | cons x xs ih =>
    rw [popFrontWhileOver]
    by_cases hc : cap < xs.length + 1
    · rw [if_pos hc, ih]
      have harith : (x :: xs).length - cap = (xs.length - cap) + 1 := by
        rw [List.length_cons]; omega
      rw [harith, List.drop_succ_cons]
    · rw [if_neg hc]
      have harith : (x :: xs).length - cap = 0 := by
        rw [List.length_cons]; omega
      rw [harith, List.drop_zero]

theorem push_recent_output_event_eq_drop (evs : List (Nat × String)) (s : Nat) (o : String) :
    push_recent_output_event evs s o
      = (evs ++ [(s, o)]).drop ((evs.length + 1) - MAX_RECENT_OUTPUT_EVENTS) := by
  rw [push_recent_output_event, popFrontWhileOver_eq_drop]
  rw [List.length_append, List.length_singleton]

theorem foldPush_eq_drop (es : List (Nat × String)) :
    es.foldl (fun acc e => push_recent_output_event acc e.1 e.2) []
      = es.drop (es.length - 1024) := by
  induction es using List.reverseRecOn with
  | nil => simp
  | append_singleton es e ih =>
    rw [List.foldl_append, List.foldl_cons, List.foldl_nil, ih,
      push_recent_output_event_eq_drop]
    simp only [MAX_RECENT_OUTPUT_EVENTS, List.length_drop, List.length_append,
      List.length_singleton]
    by_cases hc : es.length < 1024
    · have h1 : es.length - 1024 = 0 := by omega
      have h2 : es.length - (es.length - 1024) + 1 - 1024 = 0 := by omega
      have h3 : es.length + 1 - 1024 = 0 := by omega
      rw [h2, h1, h3, List.drop_zero, List.drop_zero, List.drop_zero]
    · have h2 : es.length - (es.length - 1024) + 1 - 1024 = 1 := by omega
      have hle : (1 : Nat) ≤ (es.drop (es.length - 1024)).length := by
        rw [List.length_drop]; omega
      rw [h2, List.drop_append_of_le_length hle, List.drop_drop]
      have h3 : es.length + 1 - 1024 = es.length - 1024 + 1 := by omega
      have hle2 : es.length - 1024 + 1 ≤ es.length := by omega
      rw [h3, List.drop_append_of_le_length hle2]

theorem pushSeqRange_eq_drop (out : Nat → String) (n : Nat) :
    pushSeqRange out n = ((List.range n).map (fun i => (i, out i))).drop (n - 1024) := by
  rw [pushSeqRange, ← List.foldl_map (fun i => (i, out i))
    (fun acc e => push_recent_output_event acc e.1 e.2) (List.range n) []]
  rw [foldPush_eq_drop]
  rw [List.length_map, List.length_range]

/-- C5: the DAP recent-output ring buffer never holds more than 1024
entries, and when a push would exceed that capacity the oldest entry is
evicted first: after pushing entries with seqs 0 through 1033 in
order, the buffer holds exactly 1024 entries whose first seq is 10 and
whose last seq is 1033. -/
theorem recent_output_ring_capacity :
    (∀ (evs : List (Nat × String)) (s : Nat) (o : String),
      (push_recent_output_event evs s o).length ≤ 1024)
    ∧ ∀ out : Nat → String,
        (pushSeqRange out 1034).length = 1024
        ∧ (pushSeqRange out 1034).head?.map Prod.fst = some 10
        ∧ (pushSeqRange out 1034).getLast?.map Prod.fst = some 1033 := by
  constructor
  · intro evs s o
    rw [push_recent_output_event_eq_drop, List.length_drop, List.length_append,
      List.length_singleton]
    simp only [MAX_RECENT_OUTPUT_EVENTS]
    omega
  · intro out
    rw [pushSeqRange_eq_drop]
    have hlenmap : ((List.range 1034).map (fun i => (i, out i))).length = 1034 := by
      rw [List.length_map, List.length_range]
    refine ⟨?_, ?_, ?_⟩
    · rw [List.length_drop, hlenmap]
    · rw [List.head?_drop, List.getElem?_map, List.getElem?_range (by omega : 10 < 1034)]
      rfl
    · rw [List.getLast?_eq_getElem?, List.getElem?_drop, List.length_drop, hlenmap]
      norm_num

theorem isPrefixOf_eq_true_iff (l1 l2 : Str) : l1.isPrefixOf l2 = true ↔ ∃ t, l1 ++ t = l2 := by
  rw [ List.isPrefixOf_iff_prefix]
  exact Iff.rfl

theorem strContains_iff (s needle : Str) : strContains s needle = true ↔ OccursIn needle s := by
  induction s with
  | nil =>
    rw [strContains, List.isEmpty_iff]
    constructor
    · intro h
      exact ⟨[], [], by rw [h]; rfl⟩
    · rintro ⟨pre, suf, hps⟩
      rcases List.append_eq_nil.mp (List.append_eq_nil.mp hps.symm).1 with ⟨-, h2⟩
      exact h2
  | cons c rest ih =>
    rw [strContains, Bool.or_eq_true, isPrefixOf_eq_true_iff, ih]
    constructor
    · rintro (⟨t, ht⟩ | ⟨pre, suf, hps⟩)
      · exact ⟨[], t, by rw [List.nil_append, ht]⟩
      · exact ⟨c :: pre, suf, by rw [hps]; rfl⟩
    · rintro ⟨pre, suf, hps⟩
      cases pre with
      | nil =>
        left
        exact ⟨suf, by rw [List.nil_append] at hps; exact hps.symm⟩
      | cons p ps =>
        right
        rw [List.cons_append, List.cons_append] at hps
        injection hps with h1 h2
        exact ⟨ps, suf, h2⟩

/-- Counterexample to C3 as stated: on the file content `"aa"`,
`edit_file` with `old_string = "a"`, `new_string = "b"` writes `"bb"` —
the occurrence after the first is replaced too (the source calls
`str::replace`, which replaces every occurrence), not `"ba"` as a
first-occurrence-only replacement would produce. -/
theorem edit_file_counterexample :
    rustReplacen1 ['a', 'a'] ['a'] ['b'] = ['b', 'a']
    ∧ (editFileRun "f" ['a', 'a'] ['a'] ['b']).1 = ['b', 'b']
    ∧ (['b', 'b'] : Str) ≠ ['b', 'a'] := by
  refine ⟨rfl, rfl, by decide⟩

/-- C3 (amended): `edit_file(path, old_string, new_string)` fails with
an error when `old_string` does not occur in the content of the file, and
otherwise replaces every occurrence of `old_string` with `new_string`
(not only the first) and writes the result back to the file. -/
theorem edit_file_replaces_every_occurrence (path : String) (disk old new : Str) :
    (¬ OccursIn old disk →
      editFileRun path disk old new
        = (disk, Except.error "old_string not found in file content"))
    ∧ (OccursIn old disk →
      editFileRun path disk old new
        = (rustReplace disk old new, Except.ok ("Successfully edited file " ++ path))) := by
  constructor
  · intro hocc
    have hfalse : strContains disk old = false := by
      rcases Bool.eq_false_or_eq_true (strContains disk old) with h | h
      · exact absurd ((strContains_iff disk old).mp h) hocc
      · exact h
    rw [editFileRun, if_pos hfalse]
  · intro hocc
    have htrue : strContains disk old = true := (strContains_iff disk old).mpr hocc
    rw [editFileRun, htrue]
    simp only [Bool.true_eq_false, if_false]

/-- Witness for C3 (amended): both branches at concrete inputs — a
missing `old_string` errors and leaves the content unchanged, and on
`"aa"` replacing `"a"` by `"b"` writes `"bb"` (every occurrence). -/
theorem edit_file_replaces_every_occurrence_witness :
    editFileRun "f" ['a'] ['z'] ['q']
      = (['a'], Except.error "old_string not found in file content")
    ∧ editFileRun "f" ['a', 'a'] ['a'] ['b']
      = (rustReplace ['a', 'a'] ['a'] ['b'], Except.ok "Successfully edited file f") :=
  ⟨(edit_file_replaces_every_occurrence "f" ['a'] ['z'] ['q']).1
      (fun hocc => absurd ((strContains_iff ['a'] ['z']).mpr hocc) (by decide)),
    (edit_file_replaces_every_occurrence "f" ['a', 'a'] ['a'] ['b']).2
      ⟨[], ['a'], rfl⟩⟩

theorem applyEditsFrom_of_contentAfter (es : List MEdit) :
    ∀ (i : Nat) (c c' : Str), contentAfterEdits c es = some c' →
      applyEditsFrom i c es = Except.ok c' := by
  induction es with
  | nil =>
    intro i c c' h
    rw [contentAfterEdits] at h
    injection h with h
    rw [applyEditsFrom, h]
  | cons e rest ih =>
    intro i c c' h
    rw [contentAfterEdits] at h
    rw [applyEditsFrom]
    by_cases hc : strContains c e.old_string
    · rw [if_pos hc]
      rw [if_pos hc] at h
      exact ih (i + 1) (applyOneEdit c e) c' h
    · rw [if_neg hc] at h
      cases h

theorem applyEditsFrom_err_at (es : List MEdit) :
    ∀ (i k : Nat) (hk : k < es.length) (c c' : Str),
      contentAfterEdits c (es.take k) = some c' →
      strContains c' (es.get ⟨k, hk⟩).old_string = false →
      applyEditsFrom i c es
        = Except.error ("Edit #" ++ toString (i + k) ++ ": \x27old_string\x27 not found in content") := by
  induction es with
  | nil =>
    intro i k hk
    exact absurd hk (by simp)
  | cons e rest ih =>
    intro i k hk c c' htake hfail
    cases k with
    | zero =>
      rw [List.take_zero, contentAfterEdits] at htake
      injection htake with htake
      subst htake
      have hfail2 : strContains c e.old_string = false := hfail
      rw [applyEditsFrom, hfail2]
      simp only [Bool.false_eq_true, if_false, Nat.add_zero]
    | succ k' =>
      rw [List.take_succ_cons, contentAfterEdits] at htake
      by_cases hc : strContains c e.old_string
      · rw [if_pos hc] at htake
        rw [applyEditsFrom, if_pos hc]
        have harith : i + (k' + 1) = (i + 1) + k' := by omega
        rw [harith]
        exact ih (i + 1) k' (Nat.lt_of_succ_lt_succ hk) (applyOneEdit c e) c' htake hfail
      · rw [if_neg hc] at htake
        cases htake

/-- C1: `multi_edit` is atomic all-or-nothing.  For every file content
and list of edits: if the `old_string` of some edit does not occur in the
in-memory content at the point that edit is applied (the earlier edits
having succeeded), the call returns an error naming the
(0-based) index and performs no write, so the file on disk stays
byte-identical to its pre-call state; only when every edit succeeds is
the file written, exactly once at the end, with the fully edited
content. -/
theorem multi_edit_atomic (path : String) (disk : Str) (edits : List MEdit) :
    (∀ (k : Nat) (hk : k < edits.length) (c : Str),
      contentAfterEdits disk (edits.take k) = some c →
      ¬ OccursIn (edits.get ⟨k, hk⟩).old_string c →
      multiEditRun path disk edits
        = ([], Except.error ("Edit #" ++ toString k ++ ": \x27old_string\x27 not found in content")))
    ∧ (∀ c : Str, contentAfterEdits disk edits = some c →
      multiEditRun path disk edits
        = ([c], Except.ok
            ("Successfully applied " ++ toString edits.length ++ " edits to " ++ path))) := by
  constructor
  · intro k hk c htake hocc
    have hfail : strContains c (edits.get ⟨k, hk⟩).old_string = false := by
      rcases Bool.eq_false_or_eq_true (strContains c (edits.get ⟨k, hk⟩).old_string) with h | h
      · exact absurd ((strContains_iff c (edits.get ⟨k, hk⟩).old_string).mp h) hocc
      · exact h
    have herr := applyEditsFrom_err_at edits 0 k hk disk c htake hfail
    rw [Nat.zero_add] at herr
    rw [multiEditRun, herr]
  · intro c hall
    have hok := applyEditsFrom_of_contentAfter edits 0 disk c hall
    rw [multiEditRun, hok]

/-- Witness for C1 (the concrete scenario of the spec): on content `"A"`
with edits `[{old:"A", new:"B"}, {old:"Z", new:"Y"}]`, the first edit
succeeds in memory, the `old_string` of the second is absent, and the call
reports edit #1 with no write performed. -/
theorem multi_edit_atomic_witness :
    multiEditRun "f" ['A'] [MEdit.mk ['A'] ['B'] false, MEdit.mk ['Z'] ['Y'] false]
      = ([], Except.error "Edit #1: \x27old_string\x27 not found in content") :=
  (multi_edit_atomic "f" ['A'] [MEdit.mk ['A'] ['B'] false, MEdit.mk ['Z'] ['Y'] false]).1
    1 (by decide) ['B'] rfl
    (fun hocc => absurd ((strContains_iff ['B'] ['Z']).mpr hocc) (by decide))

/-- C6: for every array of (well-formed) batch items, a failure of any
individual item — tool name not found in the registry, or the `execute`
of the tool returning an error — is recorded as that item
`{tool, status: "error", error}` record while the remaining items are
still invoked in sequence (one record per item, in order), and the
batch call itself returns success; no item failure aborts the batch. -/
theorem batch_failures_are_per_item {α : Type} (registry : List (ToolImpl α))
    (items : List (BatchItem α)) :
    batchExecute registry items = Except.ok (items.map (batchItemRecord registry))
    ∧ (items.map (batchItemRecord registry)).length = items.length
    ∧ ∀ (k : Nat) (hk : k < items.length),
        (registry.find? (fun t => t.name == (items.get ⟨k, hk⟩).tool) = none →
          (items.map (batchItemRecord registry))[k]?
            = some (BatchRecord.failure (items.get ⟨k, hk⟩).tool
                ("Tool \x27" ++ (items.get ⟨k, hk⟩).tool ++ "\x27 not found")))
        ∧ ∀ t, registry.find? (fun t => t.name == (items.get ⟨k, hk⟩).tool) = some t →
            (∀ e, t.exec (items.get ⟨k, hk⟩).params = Except.error e →
              (items.map (batchItemRecord registry))[k]?
                = some (BatchRecord.failure (items.get ⟨k, hk⟩).tool e))
            ∧ (∀ o, t.exec (items.get ⟨k, hk⟩).params = Except.ok o →
              (items.map (batchItemRecord registry))[k]?
                = some (BatchRecord.success (items.get ⟨k, hk⟩).tool o)) := by
  refine ⟨rfl, List.length_map .., ?_⟩
  intro k hk
  have hget : (items.map (batchItemRecord registry))[k]?
      = some (batchItemRecord registry (items.get ⟨k, hk⟩)) := by
    rw [List.getElem?_map]
    rw [List.getElem?_eq_getElem hk]
    rfl
  constructor
  · intro hnone
    rw [hget, batchItemRecord, hnone]
  · intro t hsome
    constructor
    · intro e herr
      rw [hget, batchItemRecord, hsome]
      simp only [herr]
    · intro o hok
      rw [hget, batchItemRecord, hsome]
      simp only [hok]

/-- Witness for C6: a registry with a succeeding tool and a failing
tool, and a batch of three items hitting the failing tool, a missing
tool, and the succeeding tool in that order: each failure is recorded
per item and the batch still reaches and records the later success. -/
theorem batch_failures_are_per_item_witness :
    (([BatchItem.mk "bad" 0, BatchItem.mk "missing" 0, BatchItem.mk "good" 0]).map
        (batchItemRecord [ToolImpl.mk "good" (fun _ : Nat => Except.ok "out"),
          ToolImpl.mk "bad" (fun _ : Nat => Except.error "boom")]))[1]?
      = some (BatchRecord.failure "missing" "Tool \x27missing\x27 not found") :=
  ((batch_failures_are_per_item
      [ToolImpl.mk "good" (fun _ : Nat => Except.ok "out"),
        ToolImpl.mk "bad" (fun _ : Nat => Except.error "boom")]
      [BatchItem.mk "bad" 0, BatchItem.mk "missing" 0, BatchItem.mk "good" 0]).2.2
    1 (by decide)).1 rfl

theorem cdExec_cases (fs : FsOracle) (st : ShState) (p : Str) :
    (∀ e, (cdExec fs st p).2 = ShellResult.err e → (cdExec fs st p).1 = st)
    ∧ ((cdExec fs st p).1 ≠ st →
        fs.isDir (cdExec fs st p).1.cwd = true
        ∧ (cdExec fs st p).2
            = ShellResult.ok ("Changed directory to: ".toList ++ (cdExec fs st p).1.cwd))
    ∧ (∀ s, (cdExec fs st p).2 ≠ ShellResult.spawned s) := by
  rcases hres : resolveCdPath fs st p with e | newPath
  · have heq : cdExec fs st p = (st, ShellResult.err e) := by
      rw [cdExec, hres]
    rw [heq]
    exact ⟨fun _ _ => rfl, fun hne => absurd rfl hne, fun s h => by cases h⟩
  · rcases hcanon : fs.canonicalize newPath with e | q
    · have heq : cdExec fs st p
          = (st, ShellResult.err ("Directory not found: ".toList ++ newPath
              ++ " (".toList ++ e ++ ")".toList)) := by
        rw [cdExec, hres]
        simp only [hcanon]
      rw [heq]
      exact ⟨fun _ _ => rfl, fun hne => absurd rfl hne, fun s h => by cases h⟩
    · cases hdir : fs.isDir q with
      | true =>
        have heq : cdExec fs st p
            = ({ st with cwd := q },
                ShellResult.ok ("Changed directory to: ".toList ++ q)) := by
          rw [cdExec, hres]
          simp only [hcanon, hdir, if_true]
        rw [heq]
        refine ⟨?_, ?_, ?_⟩
        · intro e h
          cases h
        · intro hne
          exact ⟨hdir, rfl⟩
        · intro s h
          cases h
      | false =>
        have heq : cdExec fs st p
            = (st, ShellResult.err ("Path is not a directory: ".toList ++ newPath)) := by
          rw [cdExec, hres]
          simp only [hcanon, hdir, Bool.false_eq_true, if_false]
        rw [heq]
        exact ⟨fun _ _ => rfl, fun hne => absurd rfl hne, fun s h => by cases h⟩

/-- C8: whenever a standalone `cd` command given to the shell tool
fails — the home directory cannot be resolved, the resolved path cannot
be canonicalized, or the canonical path is not a directory — the tool
returns an error and the persistent shell state (in particular its
current working directory) is unchanged; the state is updated only when
all those checks succeed, in which case the new cwd is a verified
directory and the tool reports the change. -/
theorem shell_cd_failure_preserves_cwd (fs : FsOracle) (st : ShState) (command : Str) :
    (∀ e, (shellExecute fs st command).2 = ShellResult.err e
      → (shellExecute fs st command).1 = st)
    ∧ ((shellExecute fs st command).1 ≠ st →
        fs.isDir (shellExecute fs st command).1.cwd = true
        ∧ (shellExecute fs st command).2
            = ShellResult.ok ("Changed directory to: ".toList
                ++ (shellExecute fs st command).1.cwd)) := by
  by_cases hcd : ("cd ".toList.isPrefixOf (trimStr command)) ∨ trimStr command = "cd".toList
  · have heq : shellExecute fs st command = cdExec fs st (cdPathOf (trimStr command)) := by
      rw [shellExecute]
      simp only [hcd, if_true]
    rw [heq]
    refine ⟨?_, ?_⟩
    · exact (cdExec_cases fs st (cdPathOf (trimStr command))).1
    · exact (cdExec_cases fs st (cdPathOf (trimStr command))).2.1
  · have heq : shellExecute fs st command = (st, ShellResult.spawned (trimStr command)) := by
      rw [shellExecute]
      simp only [hcd, if_false]
    rw [heq]
    exact ⟨fun e h => ShellResult.noConfusion h, fun hne => absurd rfl hne⟩

/-- Witness for C8: with a filesystem oracle on which canonicalization
fails (the path does not exist), `cd /does/not/exist` returns an error
and the persistent state — cwd `/var` — is unchanged. -/
theorem shell_cd_failure_preserves_cwd_witness :
    (shellExecute
        (FsOracle.mk none (fun _ => Except.error "No such file or directory".toList)
          (fun _ => false) (fun _ => true) (fun a b => a ++ b))
        (ShState.mk "/var".toList []) "cd /does/not/exist".toList).2
      = ShellResult.err
          ("Directory not found: /does/not/exist (No such file or directory)".toList)
    ∧ (shellExecute
        (FsOracle.mk none (fun _ => Except.error "No such file or directory".toList)
          (fun _ => false) (fun _ => true) (fun a b => a ++ b))
        (ShState.mk "/var".toList []) "cd /does/not/exist".toList).1
      = ShState.mk "/var".toList [] :=
  ⟨by decide,
    (shell_cd_failure_preserves_cwd
        (FsOracle.mk none (fun _ => Except.error "No such file or directory".toList)
          (fun _ => false) (fun _ => true) (fun a b => a ++ b))
        (ShState.mk "/var".toList []) "cd /does/not/exist".toList).1
      ("Directory not found: /does/not/exist (No such file or directory)".toList)
      (by decide)⟩

/-- C10: for every input command whose trimmed text equals `"cd"` or
begins with `"cd "`, the shell tool never spawns a subprocess: it takes
the internal `cd` branch, and the entire remainder after `"cd "` —
including any chain such as `foo && make` — is treated as one directory
path (the trimmed text after the 3-character `"cd "` prefix), so a
chained command beginning with `cd` either changes the persistent cwd
to a directory named by that whole remainder or fails, with none of the
chained commands executed. -/
theorem chained_cd_never_spawns (fs : FsOracle) (st : ShState) (command : Str)
    (h : trimStr command = "cd".toList ∨ "cd ".toList.isPrefixOf (trimStr command)) :
    (∀ s, (shellExecute fs st command).2 ≠ ShellResult.spawned s)
    ∧ shellExecute fs st command = cdExec fs st (cdPathOf (trimStr command))
    ∧ ("cd ".toList.isPrefixOf (trimStr command) = true →
        cdPathOf (trimStr command) = trimStr ((trimStr command).drop 3)) := by
  have hcd : ("cd ".toList.isPrefixOf (trimStr command)) ∨ trimStr command = "cd".toList := by
    rcases h with h | h
    · exact Or.inr h
    · exact Or.inl h
  have heq : shellExecute fs st command = cdExec fs st (cdPathOf (trimStr command)) := by
    rw [shellExecute]
    simp only [hcd, if_true]
  refine ⟨?_, heq, ?_⟩
  · intro s
    rw [heq]
    exact (cdExec_cases fs st (cdPathOf (trimStr command))).2.2 s
  · intro hpre
    have hlen : ("cd ".toList : Str).length ≤ (trimStr command).length := by
      obtain ⟨t, ht⟩ := (isPrefixOf_eq_true_iff ("cd ".toList) (trimStr command)).mp hpre
      rw [← ht, List.length_append]
      omega
    have hne : trimStr command ≠ "cd".toList := by
      intro heq2
      rw [heq2] at hlen
      exact absurd hlen (by decide)
    rw [cdPathOf, if_neg hne]

/-- Witness for C10: the chained command `cd foo && make` is handled by
the `cd` branch — never spawning a subprocess — and resolves the whole
remainder `foo && make` as the directory path. -/
theorem chained_cd_never_spawns_witness :
    (∀ s, (shellExecute
        (FsOracle.mk none (fun _ => Except.error "ENOENT".toList)
          (fun _ => false) (fun _ => false) (fun a b => a ++ b))
        (ShState.mk "/var".toList []) "cd foo && make".toList).2
      ≠ ShellResult.spawned s)
    ∧ cdPathOf (trimStr "cd foo && make".toList) = "foo && make".toList :=
  ⟨(chained_cd_never_spawns
      (FsOracle.mk none (fun _ => Except.error "ENOENT".toList)
        (fun _ => false) (fun _ => false) (fun a b => a ++ b))
      (ShState.mk "/var".toList []) "cd foo && make".toList
      (Or.inr (by decide))).1,
    by decide⟩
